import Mathlib

/-!
Verification of the n19 lexical front end (Frontend/Lexer.cpp) against its
design specification.  The translated operations are `TokenType.to_string`,
`TokenType.string_repr`, `TokenCategory.to_string`,
`TokenCategory.from_keyword`, `TokenType.from_keyword`, `Token.value`,
`Token.is_terminator` and `Token.prec`.  Machine integers (uint32_t) are
modelled as `Nat` with explicit reduction modulo 2 ^ 32 where the C++
arithmetic can wrap; fatal assertions and panics are modelled as the
`Except.error` branch of the result; `Maybe`/`Nothing` become
`Option`/`none`; `std::string` becomes `List Char` (or `String` where no
character indexing occurs).
-/

namespace N19

/-!
Murmur3 hash.

Modelled from the spec: `murmur3_x86_32` lives in `Core/Murmur3.hpp`, which
is not part of the visible sources.  The spec (section 4.3) identifies it as
the public, well-known, non-cryptographic 32-bit x86-variant mixing hash
with a three-step multiply/rotate/xor finalization, i.e. the standard
MurmurHash3 x86 32-bit algorithm, which is reproduced here: the input is a
byte sequence, processed in little-endian 4-byte blocks, followed by a
1-to-3 byte tail, a xor with the length, and the finalization mix.
-/

/-- Left rotation of a 32-bit value (a natural below 2 ^ 32) by r bits. -/
def rotl32 (x r : Nat) : Nat :=
  ((x <<< r) ||| (x >>> (32 - r))) % 2 ^ 32

/-- Per-block scramble of MurmurHash3 (x86, 32-bit): multiply by c1,
rotate left 15, multiply by c2. -/
def murmurScramble (k : Nat) : Nat :=
  (rotl32 ((k * 0xcc9e2d51) % 2 ^ 32) 15 * 0x1b873593) % 2 ^ 32

/-- One full-block state update: xor in the scrambled block, rotate left 13,
multiply by 5 and add the mixing constant. -/
def murmurStep (h k : Nat) : Nat :=
  (rotl32 (h ^^^ murmurScramble k) 13 * 5 + 0xe6546b64) % 2 ^ 32

/-- Assembly of up to four little-endian bytes into one 32-bit block. -/
def bytesLE : List Nat → Nat
  | [] => 0
  | b :: rest => b % 2 ^ 32 + 256 * bytesLE rest

/-- Block phase: consume the input four bytes at a time, returning the
mixed state and the remaining tail of fewer than four bytes. -/
def murmurBlocks (h : Nat) : List Nat → Nat × List Nat
  | b0 :: b1 :: b2 :: b3 :: rest =>
      murmurBlocks (murmurStep h (bytesLE [b0, b1, b2, b3])) rest
  | [] => (h, [])
  | [b0] => (h, [b0])
  | [b0, b1] => (h, [b0, b1])
  | [b0, b1, b2] => (h, [b0, b1, b2])

/-- Tail phase: mix the 1-to-3 byte tail into the state; an empty tail
leaves the state unchanged. -/
def murmurTail (h : Nat) : List Nat → Nat
  | [] => h
  | t => h ^^^ murmurScramble (bytesLE t)

/-- Finalization mix of MurmurHash3 (xorshift / multiply avalanche). -/
def fmix32 (h : Nat) : Nat :=
  let h1 := h ^^^ (h >>> 16)
  let h2 := (h1 * 0x85ebca6b) % 2 ^ 32
  let h3 := h2 ^^^ (h2 >>> 13)
  let h4 := (h3 * 0xc2b2ae35) % 2 ^ 32
  h4 ^^^ (h4 >>> 16)

/-- MurmurHash3, x86 32-bit variant, over a byte sequence with a seed. -/
def murmur3_x86_32 (data : List Nat) (seed : Nat) : Nat :=
  let p := murmurBlocks (seed % 2 ^ 32) data
  fmix32 (murmurTail p.1 p.2 ^^^ data.length % 2 ^ 32)

/-!
Token taxonomy.

Modelled from the spec: the `TokenType` and `TokenCategory` classes are
declared in `Frontend/Lexer.hpp`, not among the visible sources.  Per the
spec (sections 3 and 4.2), `TokenType` wraps a value of a closed
enumeration generated from one authoritative list, and `TokenCategory`
wraps a bitmask over named flags whose zero value is `NonCategorical`.
Both are modelled as wrappers around the underlying integer; the variants
named below are exactly those referenced by the translated source file,
with distinct representative codes standing in for the (unseen) generated
enumerator values.
-/

structure TokenType where
  value : Nat
deriving DecidableEq, Repr

structure TokenCategory where
  value : Nat
deriving DecidableEq, Repr

def TokenType.EndOfFile : TokenType := ⟨0⟩

def TokenType.Illegal : TokenType := ⟨1⟩

def TokenType.Semicolon : TokenType := ⟨2⟩

def TokenType.Comma : TokenType := ⟨3⟩

def TokenType.ValueAssignment : TokenType := ⟨4⟩

def TokenType.PlusEq : TokenType := ⟨5⟩

def TokenType.SubEq : TokenType := ⟨6⟩

def TokenType.MulEq : TokenType := ⟨7⟩

def TokenType.DivEq : TokenType := ⟨8⟩

def TokenType.ModEq : TokenType := ⟨9⟩

def TokenType.LshiftEq : TokenType := ⟨10⟩

def TokenType.RshiftEq : TokenType := ⟨11⟩

def TokenType.BitwiseAndEq : TokenType := ⟨12⟩

def TokenType.BitwiseOrEq : TokenType := ⟨13⟩

def TokenType.XorEq : TokenType := ⟨14⟩

def TokenType.LogicalAnd : TokenType := ⟨15⟩

def TokenType.LogicalOr : TokenType := ⟨16⟩

def TokenType.Mul : TokenType := ⟨17⟩

def TokenType.NamespaceOperator : TokenType := ⟨18⟩

def TokenType.Dot : TokenType := ⟨19⟩

def TokenType.Eq : TokenType := ⟨20⟩

def TokenType.Neq : TokenType := ⟨21⟩

def TokenType.Lt : TokenType := ⟨22⟩

def TokenType.Lte : TokenType := ⟨23⟩

def TokenType.Gt : TokenType := ⟨24⟩

def TokenType.Gte : TokenType := ⟨25⟩

def TokenType.Plus : TokenType := ⟨26⟩

def TokenType.Sub : TokenType := ⟨27⟩

def TokenType.Div : TokenType := ⟨28⟩

def TokenType.Mod : TokenType := ⟨29⟩

def TokenType.BitwiseAnd : TokenType := ⟨30⟩

def TokenType.BitwiseOr : TokenType := ⟨31⟩

def TokenType.Xor : TokenType := ⟨32⟩

def TokenType.Lshift : TokenType := ⟨33⟩

def TokenType.Rshift : TokenType := ⟨34⟩

def TokenType.SkinnyArrow : TokenType := ⟨35⟩

def TokenCategory.NonCategorical : TokenCategory := ⟨0⟩

/-- Token record: category, type, byte offset, length and line number
(`cat_`, `type_`, `pos_`, `len_`, `line_` in the source).  The uint32_t
fields are modelled as naturals. -/
structure Token where
  cat_ : TokenCategory := TokenCategory.NonCategorical
  type_ : TokenType := TokenType.EndOfFile
  pos_ : Nat := 0
  len_ : Nat := 0
  line_ : Nat := 1
deriving DecidableEq, Repr

/-!
TokenType string conversions (Lexer.cpp, lines 40-62).

Both functions expand the X-macro list `N19_TOKEN_TYPE_LIST` into a switch
over the wrapped enumeration value, returning the fixed string "Unknown"
from the default case.  The list itself lives in the unseen header, so the
switch is modelled over an explicit table of (case code, canonical name,
literal representation) rows; a C++ switch requires its case labels to be
pairwise distinct, which becomes a hypothesis of the theorems below.
-/

structure TypeEntry where
  code : Nat
  name : String
  srepr : String
deriving DecidableEq, Repr

/-- Translation of `TokenType::to_string`: switch on `value`; each listed
case returns the canonical variant name; the default case returns
"Unknown". -/
def TokenType.to_string (tbl : List TypeEntry) (t : TokenType) : String :=
  match tbl.find? (fun e => e.code == t.value) with
  | some e => e.name
  | none => "Unknown"

/-- Translation of `TokenType::string_repr`: switch on `value`; each listed
case returns the literal surface spelling; the default case returns
"Unknown". -/
def TokenType.string_repr (tbl : List TypeEntry) (t : TokenType) : String :=
  match tbl.find? (fun e => e.code == t.value) with
  | some e => e.srepr
  | none => "Unknown"

/-!
TokenCategory to_string (Lexer.cpp, lines 66-79).

The X-macro over `N19_TOKEN_CATEGORY_LIST` appends, for every flag whose
bits intersect `value`, the flag name followed by a space-pipe-space
separator to a growing buffer; afterwards the trailing separator is
trimmed when the second-to-last character is a pipe, and otherwise (empty
buffer) "NonCategorical" is appended.  The flag list is modelled as an
explicit table of (name, bits) rows.
-/

structure CatFlag where
  name : List Char
  bits : Nat
deriving DecidableEq, Repr

/-- Separator appended after every rendered flag name. -/
def catSep : List Char := [' ', '|', ' ']

/-- Buffer built by the expanded X-macro: a left-to-right pass over the
flag list appending name-plus-separator for every flag present in v. -/
def categoryBuff (flags : List CatFlag) (v : Nat) : List Char :=
  flags.foldl (fun acc f => if v &&& f.bits != 0 then acc ++ f.name ++ catSep else acc) []

/-- Translation of `TokenCategory::to_string`: build the buffer, then erase
the trailing three characters when the second-to-last character is the
pipe; otherwise (empty buffer) append "NonCategorical". -/
def TokenCategory.to_string (flags : List CatFlag) (c : TokenCategory) : List Char :=
  let buff := categoryBuff flags c.value
  if buff ≠ [] ∧ buff.getD (buff.length - 2) ' ' = '|' then
    buff.take (buff.length - 3)
  else
    buff ++ "NonCategorical".toList

/-- Names of exactly the registered flags present in the mask v, in table
order.  This definition follows the words of the specification (every set
flag rendered exactly once, in a pipe-joined list) and is compared with the
buffer-and-trim implementation above. -/
def setFlagNames (flags : List CatFlag) (v : Nat) : List (List Char) :=
  (flags.filter (fun f => v &&& f.bits != 0)).map CatFlag.name

/-!
Keyword lookup (Lexer.cpp, lines 84-97 and 133-146).

Both lookups guard on the 15-byte length, hash the candidate with
`murmur3_x86_32` under seed 0xbeef, and switch on the result against
per-keyword compile-time hash constants generated from `N19_HIR_KEYWORDS`;
the default case returns `Nothing`.  The keyword list lives in the unseen
header, so the table is modelled as an explicit list of (spelling, type,
category) rows whose case labels are the hashes of the spellings.
-/

structure KeywordEntry where
  spelling : List Nat
  ty : TokenType
  cat : TokenCategory
deriving DecidableEq, Repr

/-- Translation of `TokenType::from_keyword`: reject spellings longer than
15 bytes, then dispatch on the murmur3 hash (seed 0xbeef) against the
registered hash constants, returning the matching type or `Nothing`. -/
def TokenType.from_keyword (tbl : List KeywordEntry) (keyword : List Nat) : Option TokenType :=
  if keyword.length > 15 then none
  else
    match tbl.find? (fun e => murmur3_x86_32 e.spelling 0xbeef == murmur3_x86_32 keyword 0xbeef) with
    | some e => some e.ty
    | none => none

/-- Translation of `TokenCategory::from_keyword`: identical structure,
returning the matching category or `Nothing`. -/
def TokenCategory.from_keyword (tbl : List KeywordEntry) (str : List Nat) : Option TokenCategory :=
  if str.length > 15 then none
  else
    match tbl.find? (fun e => murmur3_x86_32 e.spelling 0xbeef == murmur3_x86_32 str 0xbeef) with
    | some e => some e.cat
    | none => none

/-- Dispatch with the hash function abstracted, used to state that the
length guard acts before any hash is computed: for long inputs the result
is `none` whatever function sits in the hash position. -/
def keywordSwitch (hash : List Nat → Nat → Nat) (tbl : List KeywordEntry)
    (s : List Nat) : Option KeywordEntry :=
  if s.length > 15 then none
  else tbl.find? (fun e => hash e.spelling 0xbeef == hash s 0xbeef)

/-!
Token value (Lexer.cpp, lines 103-117).

Zero-length tokens yield `Nothing`; otherwise two fatal ASSERT checks
require `pos_` and `pos_ + len_ - 1` to lie inside the buffer (the bound is
computed in uint32_t arithmetic, hence the explicit reduction modulo
2 ^ 32), and the byte-copy loop materializes the lexeme one casted byte at
a time.  A fired assertion is modelled as `Except.error`.
-/

/-- Message of the first assertion in `Token::value`. -/
def assertPosMsg : String := "ASSERT failed: pos_ < bytes.size()"

/-- Message of the second assertion in `Token::value`. -/
def assertEndMsg : String := "ASSERT failed: pos_ + len_ - 1 < bytes.size()"

/-- Translation of `Token::value`: `Except.error` models a fired fatal
assertion, the ok payload is the `Maybe` result. -/
def Token.value (t : Token) (bytes : List Nat) : Except String (Option (List Char)) :=
  if t.len_ = 0 then Except.ok none
  else if t.pos_ < bytes.length then
    if (t.pos_ + t.len_ + (2 ^ 32 - 1)) % 2 ^ 32 < bytes.length then
      Except.ok (some ((List.range t.len_).map fun j => Char.ofNat (bytes.getD (t.pos_ + j) 0)))
    else Except.error assertEndMsg
  else Except.error assertPosMsg

/-!
Token is_terminator and Token prec (Lexer.cpp, lines 149-193).
-/

/-- Translation of `Token::is_terminator`: true exactly when the type
equals `Semicolon` or `Comma`. -/
def Token.is_terminator (t : Token) : Bool :=
  t.type_ == TokenType.Semicolon || t.type_ == TokenType.Comma

/-- Switch inside `Token::prec`: every enumerated operator and assignment
case contains no statement and falls to the shared break, the default case
likewise breaks, so no branch produces a precedence value. -/
def precSwitch (ty : TokenType) : Option Nat :=
  if ty = TokenType.ValueAssignment then none
  else if ty = TokenType.PlusEq then none
  else if ty = TokenType.SubEq then none
  else if ty = TokenType.MulEq then none
  else if ty = TokenType.DivEq then none
  else if ty = TokenType.ModEq then none
  else if ty = TokenType.LshiftEq then none
  else if ty = TokenType.RshiftEq then none
  else if ty = TokenType.BitwiseAndEq then none
  else if ty = TokenType.BitwiseOrEq then none
  else if ty = TokenType.XorEq then none
  else if ty = TokenType.LogicalAnd then none
  else if ty = TokenType.LogicalOr then none
  else if ty = TokenType.Mul then none
  else if ty = TokenType.NamespaceOperator then none
  else if ty = TokenType.Dot then none
  else if ty = TokenType.Eq then none
  else if ty = TokenType.Neq then none
  else if ty = TokenType.Lt then none
  else if ty = TokenType.Lte then none
  else if ty = TokenType.Gt then none
  else if ty = TokenType.Gte then none
  else if ty = TokenType.Plus then none
  else if ty = TokenType.Sub then none
  else if ty = TokenType.Div then none
  else if ty = TokenType.Mod then none
  else if ty = TokenType.BitwiseAnd then none
  else if ty = TokenType.BitwiseOr then none
  else if ty = TokenType.Xor then none
  else if ty = TokenType.Lshift then none
  else if ty = TokenType.Rshift then none
  else if ty = TokenType.SkinnyArrow then none
  else none

/-- Translation of `Token::prec`: run the switch; control that leaves the
switch without a value reaches the unconditional PANIC, modelled as
`Except.error`. -/
def Token.prec (t : Token) : Except String Nat :=
  match precSwitch t.type_ with
  | some v => Except.ok v
  | none => Except.error "Token::prec(): default assertion."

/-!
Concrete instances used by the counterexample and witnesses.
-/

/-- One-row keyword table registering the 6-byte spelling r e t u r n. -/
def cexKeywordTable : List KeywordEntry :=
  [⟨[114, 101, 116, 117, 114, 110], TokenType.EndOfFile, TokenCategory.NonCategorical⟩]

/-- Four bytes whose murmur3 hash under seed 0xbeef coincides with the hash
of the 6-byte spelling registered in `cexKeywordTable`. -/
def collisionBytes : List Nat := [96, 198, 94, 16]

/-- Sixteen-byte candidate spelling, above the 15-byte keyword bound. -/
def longSpelling : List Nat := [97, 97, 97, 97, 97, 97, 97, 97, 97, 97, 97, 97, 97, 97, 97, 97]

/-- Two-flag category table used to exercise the rendering. -/
def sampleFlags : List CatFlag := [⟨"Keyword".toList, 1⟩, ⟨"Operator".toList, 4⟩]

/-- One-row type-name table used to exercise the string switches. -/
def sampleTypeTable : List TypeEntry := [⟨2, "Semicolon", ";"⟩]

/-!
Helper lemmas shared between the claim theorems.
-/

theorem find_of_mem {α : Type} (p : α → Bool) (l : List α) (a : α) (ha : a ∈ l)
    (hp : p a = true) (huniq : ∀ b ∈ l, p b = true → b = a) : l.find? p = some a := by
  induction l with
  | nil => cases ha
  | cons x r ih =>
    by_cases hx : p x = true
    · rw [List.find?_cons_of_pos r hx, huniq x (List.mem_cons_self x r) hx]
    · rw [List.find?_cons_of_neg r hx]
      have hax : a ∈ r := by
        rcases List.mem_cons.mp ha with h | h
        · subst h; exact absurd hp hx
        · exact h
      exact ih hax fun b hb hpb => huniq b (List.mem_cons_of_mem _ hb) hpb

theorem extractLoop_eq_take_drop (bytes : List Nat) (pos len : Nat)
    (h : pos + len ≤ bytes.length) :
    (List.range len).map (fun j => bytes.getD (pos + j) 0) = (bytes.drop pos).take len := by
  apply List.ext_getElem
  · simp only [List.length_map, List.length_range, List.length_take, List.length_drop]
    omega
  · intro i h1 h2
    simp only [List.getElem_map, List.getElem_range, List.getElem_take, List.getElem_drop]
    have hi : pos + i < bytes.length := by
      simp only [List.length_map, List.length_range] at h1
      omega
    exact List.getD_eq_getElem bytes 0 hi

theorem wrapped_bound (pos len : Nat) (hlen : len ≠ 0) :
    (pos + len + (2 ^ 32 - 1)) % 2 ^ 32 ≤ pos + len - 1 := by
  have h1 : pos + len + (2 ^ 32 - 1) = (pos + len - 1) + 2 ^ 32 := by omega
  rw [h1, Nat.add_mod_right]
  exact Nat.mod_le _ _

theorem wrapped_bound_eq (pos len : Nat) (hlen : len ≠ 0) (hb : pos + len ≤ 2 ^ 32) :
    (pos + len + (2 ^ 32 - 1)) % 2 ^ 32 = pos + len - 1 := by
  have h1 : pos + len + (2 ^ 32 - 1) = (pos + len - 1) + 2 ^ 32 := by omega
  rw [h1, Nat.add_mod_right]
  exact Nat.mod_eq_of_lt (by omega)

theorem categoryBuff_go (v : Nat) (flags : List CatFlag) (acc : List Char) :
    flags.foldl (fun acc f => if v &&& f.bits != 0 then acc ++ f.name ++ catSep else acc) acc
      = acc ++ ((setFlagNames flags v).map (· ++ catSep)).flatten := by
  induction flags generalizing acc with
  | nil => simp [setFlagNames]
  | cons f r ih =>
    by_cases hf : (v &&& f.bits != 0) = true
    · simp only [List.foldl_cons, if_pos hf]
      rw [ih]
      simp [setFlagNames, List.filter_cons, hf, List.append_assoc]
    · simp only [List.foldl_cons, if_neg hf]
      rw [ih]
      simp [setFlagNames, List.filter_cons, hf]

theorem categoryBuff_eq (flags : List CatFlag) (v : Nat) :
    categoryBuff flags v = ((setFlagNames flags v).map (· ++ catSep)).flatten := by
  rw [categoryBuff, categoryBuff_go]
  rfl

theorem intercalate_cons₂ (sep x y : List Char) (r : List (List Char)) :
    List.intercalate sep (x :: y :: r) = x ++ sep ++ List.intercalate sep (y :: r) := by
  simp [List.intercalate, List.intersperse_cons₂, List.append_assoc]

theorem flatten_map_sep (l : List (List Char)) (hl : l ≠ []) :
    (l.map (· ++ catSep)).flatten = List.intercalate catSep l ++ catSep := by
  induction l with
  | nil => cases hl rfl
  | cons x r ih =>
    cases r with
    | nil => simp [List.intercalate]
    | cons y r2 =>
      rw [List.map_cons, List.flatten_cons, ih (by simp), intercalate_cons₂]
      simp [List.append_assoc]

theorem getD_last_pipe (x : List Char) :
    (x ++ catSep).getD ((x ++ catSep).length - 2) ' ' = '|' := by
  have hlen : (x ++ catSep).length = x.length + 3 := by simp [catSep]
  rw [hlen, show x.length + 3 - 2 = x.length + 1 from by omega]
  rw [List.getD_append_right x catSep ' ' (x.length + 1) (by omega)]
  rw [show x.length + 1 - x.length = 1 from by omega]
  rfl

theorem take_trim (x : List Char) :
    (x ++ catSep).take ((x ++ catSep).length - 3) = x := by
  have hlen : (x ++ catSep).length = x.length + 3 := by simp [catSep]
  rw [hlen, show x.length + 3 - 3 = x.length from by omega]
  exact List.take_left x catSep

theorem setFlagNames_zero (flags : List CatFlag) : setFlagNames flags 0 = [] := by
  simp [setFlagNames, List.filter_eq_nil_iff]

theorem precSwitch_eq_none (ty : TokenType) : precSwitch ty = none := by
  simp only [precSwitch, ite_self]

/-!
Claim theorems.
-/

/-- Claim C1: for every token, regardless of which operator or assignment
token type it has, `Token.prec` never returns a precedence value: every
enumerated case of the switch falls through, and the function
unconditionally reaches the fatal PANIC, modelled as the error result. -/
theorem prec_always_fatal (t : Token) :
    Token.prec t = Except.error "Token::prec(): default assertion." := by
  simp [Token.prec, precSwitch_eq_none]

/-- Claim C2 (counterexample): a four-byte spelling that is not registered
in the keyword table nevertheless collides with the hash of the registered
spelling and is therefore recognized by both lookups, refuting the clause
that every non-registered spelling maps to absence. -/
theorem from_keyword_nonkeyword_collision :
    collisionBytes ≠ [114, 101, 116, 117, 114, 110]
    ∧ murmur3_x86_32 collisionBytes 0xbeef
        = murmur3_x86_32 [114, 101, 116, 117, 114, 110] 0xbeef
    ∧ TokenType.from_keyword cexKeywordTable collisionBytes = some TokenType.EndOfFile
    ∧ TokenCategory.from_keyword cexKeywordTable collisionBytes
        = some TokenCategory.NonCategorical := by
  decide

/-- Claim C2 (amended): for a table whose registered spellings are at most
15 bytes and hash-distinct (the well-formedness the C++ switch enforces via
distinct case labels), every registered keyword maps to its registered
type and category; and every spelling that is longer than 15 bytes or
whose murmur3 hash (seed 0xbeef) differs from the hash of every registered
spelling maps to absence in both lookups. -/
theorem from_keyword_registered_and_guarded :
    (∀ (tbl : List KeywordEntry) (e : KeywordEntry),
      (∀ e1 ∈ tbl, ∀ e2 ∈ tbl,
        murmur3_x86_32 e1.spelling 0xbeef = murmur3_x86_32 e2.spelling 0xbeef → e1 = e2) →
      e ∈ tbl → e.spelling.length ≤ 15 →
      TokenType.from_keyword tbl e.spelling = some e.ty ∧
      TokenCategory.from_keyword tbl e.spelling = some e.cat)
    ∧ ∀ (tbl : List KeywordEntry) (s : List Nat),
      (15 < s.length ∨ ∀ e ∈ tbl, murmur3_x86_32 s 0xbeef ≠ murmur3_x86_32 e.spelling 0xbeef) →
      TokenType.from_keyword tbl s = none ∧ TokenCategory.from_keyword tbl s = none := by
  constructor
  · intro tbl e hwf he hlen
    have hfind : tbl.find?
        (fun x => murmur3_x86_32 x.spelling 0xbeef == murmur3_x86_32 e.spelling 0xbeef)
        = some e := by
      apply find_of_mem _ _ _ he (by simp)
      intro b hb hpb
      exact hwf b hb e he (by simpa using hpb)
    have hguard : ¬ e.spelling.length > 15 := by omega
    constructor
    · rw [TokenType.from_keyword, if_neg hguard, hfind]
    · rw [TokenCategory.from_keyword, if_neg hguard, hfind]
  · intro tbl s hcase
    by_cases hlen : s.length > 15
    · constructor
      · rw [TokenType.from_keyword, if_pos hlen]
      · rw [TokenCategory.from_keyword, if_pos hlen]
    · rcases hcase with hl | hne
      · omega
      · have hfind : tbl.find?
            (fun x => murmur3_x86_32 x.spelling 0xbeef == murmur3_x86_32 s 0xbeef)
            = none := by
          rw [List.find?_eq_none]
          intro x hx
          simp only [beq_iff_eq]
          exact fun hcontra => hne x hx hcontra.symm
        constructor
        · rw [TokenType.from_keyword, if_neg hlen, hfind]
        · rw [TokenCategory.from_keyword, if_neg hlen, hfind]

/-- Witness for the amended claim C2 at the concrete one-row table: the
registered spelling is recognized with its registered type, and a short
non-colliding spelling is rejected by the category lookup. -/
theorem from_keyword_registered_and_guarded_witness :
    TokenType.from_keyword cexKeywordTable [114, 101, 116, 117, 114, 110]
      = some TokenType.EndOfFile
    ∧ TokenCategory.from_keyword cexKeywordTable [120, 121] = none :=
  ⟨(from_keyword_registered_and_guarded.1 cexKeywordTable
      ⟨[114, 101, 116, 117, 114, 110], TokenType.EndOfFile, TokenCategory.NonCategorical⟩
      (by decide) (by decide) (by decide)).1,
   (from_keyword_registered_and_guarded.2 cexKeywordTable [120, 121] (Or.inr (by decide))).2⟩

/-- Claim C3: for every token with nonzero length whose span lies inside
the buffer, `Token.value` returns exactly the bytes from pos to
pos + length (exclusive) decoded as characters; and for every token of
length zero it returns absence rather than failing. -/
theorem value_roundtrip :
    (∀ (t : Token) (bytes : List Nat), t.len_ ≠ 0 → t.pos_ + t.len_ ≤ bytes.length →
      Token.value t bytes
        = Except.ok (some (((bytes.drop t.pos_).take t.len_).map Char.ofNat)))
    ∧ ∀ (t : Token) (bytes : List Nat), t.len_ = 0 → Token.value t bytes = Except.ok none := by
  constructor
  · intro t bytes hlen hspan
    have hpos : t.pos_ < bytes.length := by omega
    have hwrap : (t.pos_ + t.len_ + (2 ^ 32 - 1)) % 2 ^ 32 < bytes.length := by
      have := wrapped_bound t.pos_ t.len_ hlen
      omega
    rw [Token.value, if_neg hlen, if_pos hpos, if_pos hwrap]
    have hmap : (List.range t.len_).map (fun j => Char.ofNat (bytes.getD (t.pos_ + j) 0))
        = ((bytes.drop t.pos_).take t.len_).map Char.ofNat := by
      rw [← extractLoop_eq_take_drop bytes t.pos_ t.len_ hspan, List.map_map]
      rfl
    rw [hmap]
  · intro t bytes hlen
    rw [Token.value, if_pos hlen]

/-- Witness for claim C3: a token spanning bytes 1 and 2 of a four-byte
buffer materializes exactly that substring, and a zero-length token yields
absence. -/
theorem value_roundtrip_witness :
    Token.value ⟨TokenCategory.NonCategorical, TokenType.EndOfFile, 1, 2, 1⟩ [10, 20, 30, 40]
      = Except.ok (some ((([10, 20, 30, 40].drop 1).take 2).map Char.ofNat))
    ∧ Token.value ⟨TokenCategory.NonCategorical, TokenType.EndOfFile, 0, 0, 1⟩ [10]
      = Except.ok none :=
  ⟨value_roundtrip.1 ⟨TokenCategory.NonCategorical, TokenType.EndOfFile, 1, 2, 1⟩
      [10, 20, 30, 40] (by decide) (by decide),
   value_roundtrip.2 ⟨TokenCategory.NonCategorical, TokenType.EndOfFile, 0, 0, 1⟩ [10] rfl⟩

/-- Claim C4: every candidate spelling longer than 15 bytes is rejected by
both keyword lookups immediately; the result is absence for every choice
of hash function in the dispatch, so no hash is computed or compared. -/
theorem from_keyword_length_guard :
    ∀ (tbl : List KeywordEntry) (s : List Nat), 15 < s.length →
      TokenType.from_keyword tbl s = none ∧ TokenCategory.from_keyword tbl s = none
      ∧ ∀ hash : List Nat → Nat → Nat, keywordSwitch hash tbl s = none := by
  intro tbl s h
  refine ⟨?_, ?_, ?_⟩
  · rw [TokenType.from_keyword, if_pos h]
  · rw [TokenCategory.from_keyword, if_pos h]
  · intro hash
    rw [keywordSwitch, if_pos h]

/-- Witness for claim C4 at a sixteen-byte spelling. -/
theorem from_keyword_length_guard_witness :
    TokenType.from_keyword cexKeywordTable longSpelling = none
    ∧ TokenCategory.from_keyword cexKeywordTable longSpelling = none
    ∧ keywordSwitch (fun _ _ => 0) cexKeywordTable longSpelling = none :=
  ⟨(from_keyword_length_guard cexKeywordTable longSpelling (by decide)).1,
   (from_keyword_length_guard cexKeywordTable longSpelling (by decide)).2.1,
   (from_keyword_length_guard cexKeywordTable longSpelling (by decide)).2.2 fun _ _ => 0⟩

/-- Claim C6: for every token with nonzero length (whose uint32 span fits
the 32-bit check), `Token.value` asserts that pos and pos + len - 1 lie
inside the buffer: when both bounds hold the assertion never fires and the
call returns normally, and when a bound is violated the call ends in one of
the two fatal assertion errors instead of an error value. -/
theorem value_bounds_assert :
    ∀ (t : Token) (bytes : List Nat), t.len_ ≠ 0 → t.pos_ + t.len_ ≤ 2 ^ 32 →
      ((t.pos_ < bytes.length ∧ t.pos_ + t.len_ - 1 < bytes.length) →
        (Token.value t bytes).isOk = true)
      ∧ (¬ (t.pos_ < bytes.length ∧ t.pos_ + t.len_ - 1 < bytes.length) →
        Token.value t bytes = Except.error assertPosMsg
        ∨ Token.value t bytes = Except.error assertEndMsg) := by
  intro t bytes hlen hfit
  have heq := wrapped_bound_eq t.pos_ t.len_ hlen hfit
  constructor
  · rintro ⟨h1, h2⟩
    rw [Token.value, if_neg hlen, if_pos h1, if_pos (heq ▸ h2)]
    rfl
  · intro hviol
    by_cases h1 : t.pos_ < bytes.length
    · have h2 : ¬ t.pos_ + t.len_ - 1 < bytes.length := fun h => hviol ⟨h1, h⟩
      right
      rw [Token.value, if_neg hlen, if_pos h1, if_neg (heq ▸ h2)]
    · left
      rw [Token.value, if_neg hlen, if_neg h1]

/-- Witness for claim C6: an in-bounds token returns normally and a token
whose offset lies past the one-byte buffer dies on the first assertion. -/
theorem value_bounds_assert_witness :
    (Token.value ⟨TokenCategory.NonCategorical, TokenType.EndOfFile, 0, 1, 1⟩ [65]).isOk = true
    ∧ (Token.value ⟨TokenCategory.NonCategorical, TokenType.Illegal, 5, 3, 1⟩ [65]
        = Except.error assertPosMsg
      ∨ Token.value ⟨TokenCategory.NonCategorical, TokenType.Illegal, 5, 3, 1⟩ [65]
        = Except.error assertEndMsg) :=
  ⟨(value_bounds_assert ⟨TokenCategory.NonCategorical, TokenType.EndOfFile, 0, 1, 1⟩ [65]
      (by decide) (by decide)).1 (by decide),
   (value_bounds_assert ⟨TokenCategory.NonCategorical, TokenType.Illegal, 5, 3, 1⟩ [65]
      (by decide) (by decide)).2 (by decide)⟩

/-- Claim C7: `TokenCategory.to_string` on the zero mask returns exactly
"NonCategorical"; on a mask intersecting at least one registered flag it
returns the names of exactly the set flags, each exactly once in table
order, joined by the pipe separator with the trailing separator trimmed. -/
theorem category_to_string_spec :
    (∀ flags : List CatFlag,
      TokenCategory.to_string flags TokenCategory.NonCategorical = "NonCategorical".toList)
    ∧ ∀ (flags : List CatFlag) (c : TokenCategory), setFlagNames flags c.value ≠ [] →
        TokenCategory.to_string flags c = List.intercalate catSep (setFlagNames flags c.value) := by
  constructor
  · intro flags
    have hb : categoryBuff flags TokenCategory.NonCategorical.value = [] := by
      rw [categoryBuff_eq, show TokenCategory.NonCategorical.value = 0 from rfl,
        setFlagNames_zero]
      rfl
    simp [TokenCategory.to_string, hb]
  · intro flags c hne
    have hb : categoryBuff flags c.value
        = List.intercalate catSep (setFlagNames flags c.value) ++ catSep := by
      rw [categoryBuff_eq, flatten_map_sep _ hne]
    rw [TokenCategory.to_string]
    simp only [hb]
    rw [if_pos ⟨by simp [catSep], getD_last_pipe _⟩, take_trim]

/-- Witness for claim C7: a mask holding both registered flags renders as
the two names pipe-joined without a trailing separator. -/
theorem category_to_string_spec_witness :
    TokenCategory.to_string sampleFlags ⟨5⟩ = "Keyword | Operator".toList :=
  (category_to_string_spec.2 sampleFlags ⟨5⟩ (by decide)).trans (by decide)

/-- Claim C8: over any table of variants with pairwise distinct case codes,
`TokenType.to_string` and `TokenType.string_repr` are total: a value listed
in the table is mapped to its canonical name and its literal spelling, and
any value outside the closed set yields the fixed fallback "Unknown". -/
theorem token_type_strings_total :
    ∀ (tbl : List TypeEntry) (t : TokenType),
      (∀ e1 ∈ tbl, ∀ e2 ∈ tbl, e1.code = e2.code → e1 = e2) →
      (∀ e ∈ tbl, e.code = t.value →
        TokenType.to_string tbl t = e.name ∧ TokenType.string_repr tbl t = e.srepr)
      ∧ ((∀ e ∈ tbl, e.code ≠ t.value) →
        TokenType.to_string tbl t = "Unknown" ∧ TokenType.string_repr tbl t = "Unknown") := by
  intro tbl t hwf
  constructor
  · intro e he hcode
    have hfind : tbl.find? (fun x => x.code == t.value) = some e := by
      apply find_of_mem _ _ _ he (by simp [hcode])
      intro b hb hpb
      apply hwf b hb e he
      have hb2 : b.code = t.value := by simpa using hpb
      rw [hb2, hcode]
    exact ⟨by rw [TokenType.to_string, hfind], by rw [TokenType.string_repr, hfind]⟩
  · intro hnone
    have hfind : tbl.find? (fun x => x.code == t.value) = none := by
      rw [List.find?_eq_none]
      intro x hx
      simpa using hnone x hx
    exact ⟨by rw [TokenType.to_string, hfind], by rw [TokenType.string_repr, hfind]⟩

/-- Witness for claim C8: the listed code renders its name and literal
spelling, and a code outside the table renders the fallback. -/
theorem token_type_strings_total_witness :
    TokenType.to_string sampleTypeTable ⟨2⟩ = "Semicolon"
    ∧ TokenType.string_repr sampleTypeTable ⟨2⟩ = ";"
    ∧ TokenType.to_string sampleTypeTable ⟨99⟩ = "Unknown"
    ∧ TokenType.string_repr sampleTypeTable ⟨99⟩ = "Unknown" :=
  ⟨((token_type_strings_total sampleTypeTable ⟨2⟩ (by decide)).1
      ⟨2, "Semicolon", ";"⟩ (by decide) rfl).1,
   ((token_type_strings_total sampleTypeTable ⟨2⟩ (by decide)).1
      ⟨2, "Semicolon", ";"⟩ (by decide) rfl).2,
   ((token_type_strings_total sampleTypeTable ⟨99⟩ (by decide)).2 (by decide)).1,
   ((token_type_strings_total sampleTypeTable ⟨99⟩ (by decide)).2 (by decide)).2⟩

/-- Claim C9: `Token.is_terminator` returns true exactly when the type of
the token is `Semicolon` or `Comma`. -/
theorem is_terminator_iff (t : Token) :
    t.is_terminator = true ↔ t.type_ = TokenType.Semicolon ∨ t.type_ = TokenType.Comma := by
  simp [Token.is_terminator]

/-- Claim C10: a spelling is rejected by `TokenCategory.from_keyword`
exactly when it is rejected by `TokenType.from_keyword`: both lookups share
the length guard, the murmur3 hash with seed 0xbeef, and the keyword
table. -/
theorem from_keyword_absence_agree (tbl : List KeywordEntry) (s : List Nat) :
    TokenType.from_keyword tbl s = none ↔ TokenCategory.from_keyword tbl s = none := by
  unfold TokenType.from_keyword TokenCategory.from_keyword
  split
  · simp
  · cases tbl.find? (fun e => murmur3_x86_32 e.spelling 0xbeef == murmur3_x86_32 s 0xbeef) <;>
      simp

end N19
